import Mathlib

/- Verification of the webmachine HTTP state-machine library: a shallow
embedding of the decision graph, content negotiation, response
finalisation, dispatching and query parsing, with theorems about the
claims of the specification. Rust strings are modelled as lists of
characters, hash maps as association lists, and floating-point quality
weights as explicit fractions of natural numbers. -/

namespace Webmachine

/-- Strings are modelled as lists of characters. -/
abbrev Str := List Char

/-- The decision nodes of the webmachine state machine (enums.rs). -/
inductive Decision
  | Start
  | End (code : Nat)
  | A3Options
  | B3Options
  | B4RequestEntityTooLarge
  | B5UnknownContentType
  | B6UnsupportedContentHeader
  | B7Forbidden
  | B8Authorized
  | B9MalformedRequest
  | B10MethodAllowed
  | B11UriTooLong
  | B12KnownMethod
  | B13Available
  | C3AcceptExists
  | C4AcceptableMediaTypeAvailable
  | D4AcceptLanguageExists
  | D5AcceptableLanguageAvailable
  | E5AcceptCharsetExists
  | E6AcceptableCharsetAvailable
  | F6AcceptEncodingExists
  | F7AcceptableEncodingAvailable
  | G7ResourceExists
  | G8IfMatchExists
  | G9IfMatchStarExists
  | G11EtagInIfMatch
  | H7IfMatchStarExists
  | H10IfUnmodifiedSinceExists
  | H11IfUnmodifiedSinceValid
  | H12LastModifiedGreaterThanUMS
  | I4HasMovedPermanently
  | I12IfNoneMatchExists
  | I13IfNoneMatchStarExists
  | I7Put
  | J18GetHead
  | K5HasMovedPermanently
  | K7ResourcePreviouslyExisted
  | K13ETagInIfNoneMatch
  | L5HasMovedTemporarily
  | L7Post
  | L13IfModifiedSinceExists
  | L14IfModifiedSinceValid
  | L15IfModifiedSinceGreaterThanNow
  | L17IfLastModifiedGreaterThanMS
  | M5Post
  | M7PostToMissingResource
  | M16Delete
  | M20DeleteEnacted
  | N5PostToMissingResource
  | N11Redirect
  | N16Post
  | O14Conflict
  | O16Put
  | O18MultipleRepresentations
  | O20ResponseHasBody
  | P3Conflict
  | P11NewResource
deriving Repr

/-- Whether a decision node is terminal (enums.rs, Decision::is_terminal). -/
def Decision.is_terminal : Decision → Bool
  | .End _ => true
  | .A3Options => true
  | _ => false

/-- A transition of the state machine (enums.rs, Transition). -/
inductive Transition
  | To (d : Decision)
  | Branch (onTrue onFalse : Decision)
deriving Repr

/-- The transition table of the state machine (lib.rs, TRANSITION_MAP):
a lookup from decision node to transition, with no entry for the
terminal nodes. -/
def TRANSITION_MAP : Decision → Option Transition
  | .Start => some (.To .B13Available)
  | .B3Options => some (.Branch .A3Options .C3AcceptExists)
  | .B4RequestEntityTooLarge => some (.Branch (.End 413) .B3Options)
  | .B5UnknownContentType => some (.Branch (.End 415) .B4RequestEntityTooLarge)
  | .B6UnsupportedContentHeader => some (.Branch (.End 501) .B5UnknownContentType)
  | .B7Forbidden => some (.Branch (.End 403) .B6UnsupportedContentHeader)
  | .B8Authorized => some (.Branch .B7Forbidden (.End 401))
  | .B9MalformedRequest => some (.Branch (.End 400) .B8Authorized)
  | .B10MethodAllowed => some (.Branch .B9MalformedRequest (.End 405))
  | .B11UriTooLong => some (.Branch (.End 414) .B10MethodAllowed)
  | .B12KnownMethod => some (.Branch .B11UriTooLong (.End 501))
  | .B13Available => some (.Branch .B12KnownMethod (.End 503))
  | .C3AcceptExists => some (.Branch .C4AcceptableMediaTypeAvailable .D4AcceptLanguageExists)
  | .C4AcceptableMediaTypeAvailable => some (.Branch .D4AcceptLanguageExists (.End 406))
  | .D4AcceptLanguageExists => some (.Branch .D5AcceptableLanguageAvailable .E5AcceptCharsetExists)
  | .D5AcceptableLanguageAvailable => some (.Branch .E5AcceptCharsetExists (.End 406))
  | .E5AcceptCharsetExists => some (.Branch .E6AcceptableCharsetAvailable .F6AcceptEncodingExists)
  | .E6AcceptableCharsetAvailable => some (.Branch .F6AcceptEncodingExists (.End 406))
  | .F6AcceptEncodingExists => some (.Branch .F7AcceptableEncodingAvailable .G7ResourceExists)
  | .F7AcceptableEncodingAvailable => some (.Branch .G7ResourceExists (.End 406))
  | .G7ResourceExists => some (.Branch .G8IfMatchExists .H7IfMatchStarExists)
  | .G8IfMatchExists => some (.Branch .G9IfMatchStarExists .H10IfUnmodifiedSinceExists)
  | .G9IfMatchStarExists => some (.Branch .H10IfUnmodifiedSinceExists .G11EtagInIfMatch)
  | .G11EtagInIfMatch => some (.Branch .H10IfUnmodifiedSinceExists (.End 412))
  | .H7IfMatchStarExists => some (.Branch (.End 412) .I7Put)
  | .H10IfUnmodifiedSinceExists => some (.Branch .H11IfUnmodifiedSinceValid .I12IfNoneMatchExists)
  | .H11IfUnmodifiedSinceValid => some (.Branch .H12LastModifiedGreaterThanUMS .I12IfNoneMatchExists)
  | .H12LastModifiedGreaterThanUMS => some (.Branch (.End 412) .I12IfNoneMatchExists)
  | .I4HasMovedPermanently => some (.Branch (.End 301) .P3Conflict)
  | .I7Put => some (.Branch .I4HasMovedPermanently .K7ResourcePreviouslyExisted)
  | .I12IfNoneMatchExists => some (.Branch .I13IfNoneMatchStarExists .L13IfModifiedSinceExists)
  | .I13IfNoneMatchStarExists => some (.Branch .J18GetHead .K13ETagInIfNoneMatch)
  | .J18GetHead => some (.Branch (.End 304) (.End 412))
  | .K13ETagInIfNoneMatch => some (.Branch .J18GetHead .L13IfModifiedSinceExists)
  | .K5HasMovedPermanently => some (.Branch (.End 301) .L5HasMovedTemporarily)
  | .K7ResourcePreviouslyExisted => some (.Branch .K5HasMovedPermanently .L7Post)
  | .L5HasMovedTemporarily => some (.Branch (.End 307) .M5Post)
  | .L7Post => some (.Branch .M7PostToMissingResource (.End 404))
  | .L13IfModifiedSinceExists => some (.Branch .L14IfModifiedSinceValid .M16Delete)
  | .L14IfModifiedSinceValid => some (.Branch .L15IfModifiedSinceGreaterThanNow .M16Delete)
  | .L15IfModifiedSinceGreaterThanNow => some (.Branch .M16Delete .L17IfLastModifiedGreaterThanMS)
  | .L17IfLastModifiedGreaterThanMS => some (.Branch .M16Delete (.End 304))
  | .M5Post => some (.Branch .N5PostToMissingResource (.End 410))
  | .M7PostToMissingResource => some (.Branch .N11Redirect (.End 404))
  | .M16Delete => some (.Branch .M20DeleteEnacted .N16Post)
  | .M20DeleteEnacted => some (.Branch .O20ResponseHasBody (.End 202))
  | .N5PostToMissingResource => some (.Branch .N11Redirect (.End 410))
  | .N11Redirect => some (.Branch (.End 303) .P11NewResource)
  | .N16Post => some (.Branch .N11Redirect .O16Put)
  | .O14Conflict => some (.Branch (.End 409) .P11NewResource)
  | .O16Put => some (.Branch .O14Conflict .O18MultipleRepresentations)
  | .P3Conflict => some (.Branch (.End 409) .P11NewResource)
  | .P11NewResource => some (.Branch (.End 201) .O20ResponseHasBody)
  | .O18MultipleRepresentations => some (.Branch (.End 300) (.End 200))
  | .O20ResponseHasBody => some (.Branch .O18MultipleRepresentations (.End 204))
  | .End _ => none
  | .A3Options => none

/-- Modelled from the spec: the appendix transition table of the
specification, written entry by entry in the appendix order, with the
appendix abbreviations expanded to the full decision-node names. The
terminal nodes carry no entry. -/
def appendixTable : Decision → Option Transition
  | .Start => some (.To .B13Available)
  | .B3Options => some (.Branch .A3Options .C3AcceptExists)
  | .B4RequestEntityTooLarge => some (.Branch (.End 413) .B3Options)
  | .B5UnknownContentType => some (.Branch (.End 415) .B4RequestEntityTooLarge)
  | .B6UnsupportedContentHeader => some (.Branch (.End 501) .B5UnknownContentType)
  | .B7Forbidden => some (.Branch (.End 403) .B6UnsupportedContentHeader)
  | .B8Authorized => some (.Branch .B7Forbidden (.End 401))
  | .B9MalformedRequest => some (.Branch (.End 400) .B8Authorized)
  | .B10MethodAllowed => some (.Branch .B9MalformedRequest (.End 405))
  | .B11UriTooLong => some (.Branch (.End 414) .B10MethodAllowed)
  | .B12KnownMethod => some (.Branch .B11UriTooLong (.End 501))
  | .B13Available => some (.Branch .B12KnownMethod (.End 503))
  | .C3AcceptExists => some (.Branch .C4AcceptableMediaTypeAvailable .D4AcceptLanguageExists)
  | .C4AcceptableMediaTypeAvailable => some (.Branch .D4AcceptLanguageExists (.End 406))
  | .D4AcceptLanguageExists => some (.Branch .D5AcceptableLanguageAvailable .E5AcceptCharsetExists)
  | .D5AcceptableLanguageAvailable => some (.Branch .E5AcceptCharsetExists (.End 406))
  | .E5AcceptCharsetExists => some (.Branch .E6AcceptableCharsetAvailable .F6AcceptEncodingExists)
  | .E6AcceptableCharsetAvailable => some (.Branch .F6AcceptEncodingExists (.End 406))
  | .F6AcceptEncodingExists => some (.Branch .F7AcceptableEncodingAvailable .G7ResourceExists)
  | .F7AcceptableEncodingAvailable => some (.Branch .G7ResourceExists (.End 406))
  | .G7ResourceExists => some (.Branch .G8IfMatchExists .H7IfMatchStarExists)
  | .G8IfMatchExists => some (.Branch .G9IfMatchStarExists .H10IfUnmodifiedSinceExists)
  | .G9IfMatchStarExists => some (.Branch .H10IfUnmodifiedSinceExists .G11EtagInIfMatch)
  | .G11EtagInIfMatch => some (.Branch .H10IfUnmodifiedSinceExists (.End 412))
  | .H7IfMatchStarExists => some (.Branch (.End 412) .I7Put)
  | .H10IfUnmodifiedSinceExists => some (.Branch .H11IfUnmodifiedSinceValid .I12IfNoneMatchExists)
  | .H11IfUnmodifiedSinceValid => some (.Branch .H12LastModifiedGreaterThanUMS .I12IfNoneMatchExists)
  | .H12LastModifiedGreaterThanUMS => some (.Branch (.End 412) .I12IfNoneMatchExists)
  | .I4HasMovedPermanently => some (.Branch (.End 301) .P3Conflict)
  | .I7Put => some (.Branch .I4HasMovedPermanently .K7ResourcePreviouslyExisted)
  | .I12IfNoneMatchExists => some (.Branch .I13IfNoneMatchStarExists .L13IfModifiedSinceExists)
  | .I13IfNoneMatchStarExists => some (.Branch .J18GetHead .K13ETagInIfNoneMatch)
  | .J18GetHead => some (.Branch (.End 304) (.End 412))
  | .K13ETagInIfNoneMatch => some (.Branch .J18GetHead .L13IfModifiedSinceExists)
  | .K5HasMovedPermanently => some (.Branch (.End 301) .L5HasMovedTemporarily)
  | .K7ResourcePreviouslyExisted => some (.Branch .K5HasMovedPermanently .L7Post)
  | .L5HasMovedTemporarily => some (.Branch (.End 307) .M5Post)
  | .L7Post => some (.Branch .M7PostToMissingResource (.End 404))
  | .L13IfModifiedSinceExists => some (.Branch .L14IfModifiedSinceValid .M16Delete)
  | .L14IfModifiedSinceValid => some (.Branch .L15IfModifiedSinceGreaterThanNow .M16Delete)
  | .L15IfModifiedSinceGreaterThanNow => some (.Branch .M16Delete .L17IfLastModifiedGreaterThanMS)
  | .L17IfLastModifiedGreaterThanMS => some (.Branch .M16Delete (.End 304))
  | .M5Post => some (.Branch .N5PostToMissingResource (.End 410))
  | .M7PostToMissingResource => some (.Branch .N11Redirect (.End 404))
  | .M16Delete => some (.Branch .M20DeleteEnacted .N16Post)
  | .M20DeleteEnacted => some (.Branch .O20ResponseHasBody (.End 202))
  | .N5PostToMissingResource => some (.Branch .N11Redirect (.End 410))
  | .N11Redirect => some (.Branch (.End 303) .P11NewResource)
  | .N16Post => some (.Branch .N11Redirect .O16Put)
  | .O14Conflict => some (.Branch (.End 409) .P11NewResource)
  | .O16Put => some (.Branch .O14Conflict .O18MultipleRepresentations)
  | .P3Conflict => some (.Branch (.End 409) .P11NewResource)
  | .P11NewResource => some (.Branch (.End 201) .O20ResponseHasBody)
  | .O18MultipleRepresentations => some (.Branch (.End 300) (.End 200))
  | .O20ResponseHasBody => some (.Branch .O18MultipleRepresentations (.End 204))
  | .End _ => none
  | .A3Options => none

/-- C1: the program transition table equals the appendix table of the
specification: both are lookups from decision node to transition; every
appendix entry is present with exactly the listed transition (in
particular Start unconditionally goes to B13Available and B8Authorized
branches to B7Forbidden on true and End(401) on false), every entry of
the map is an appendix entry, and the terminal nodes have no entry in
either. -/
theorem transition_map_eq_appendix : ∀ d : Decision, TRANSITION_MAP d = appendixTable d := by
  intro d
  cases d <;> rfl

/-- The bound on state machine transitions (enums.rs,
MAX_STATE_MACHINE_TRANSITIONS). -/
def MAX_STATE_MACHINE_TRANSITIONS : Nat := 100

/-- The result of evaluating a decision node's predicate (enums.rs,
DecisionResult), with the diagnostic strings dropped. -/
inductive DecisionOutcome
  | isTrue
  | isFalse
  | statusCode (code : Nat)
deriving DecidableEq, Repr

/-- The node the machine moves to when a transition is resolved with a
given decision outcome (the match inside execute_state_machine's loop in
lib.rs): an unconditional transition ignores the outcome, a branch
follows its true or false target, and a status-code outcome jumps to the
corresponding terminal node. -/
def outcomeTarget : Transition → DecisionOutcome → Decision
  | .To d, _ => d
  | .Branch t _, .isTrue => t
  | .Branch _ f, .isFalse => f
  | .Branch _ _, .statusCode c => .End c

/-- One step of the state machine driven by an oracle giving the outcome
of each decision evaluation (the callbacks and request data abstracted
as a function of the transition count and the node). Returns none when
the transition table has no entry for the node. -/
def smStep (o : Nat → Decision → DecisionOutcome) (count : Nat) (d : Decision) :
    Option Decision :=
  match TRANSITION_MAP d with
  | none => none
  | some t => some (outcomeTarget t (o count d))

/-- A loud failure of the state machine driver: the panic taken when the
transition count reaches the bound, or the End(500) branch taken on a
missing transition-table entry (lib.rs, execute_state_machine). -/
inductive SMFault
  | panicked
  | missingEntry
deriving DecidableEq, Repr

/-- The state machine driver loop (lib.rs, execute_state_machine): run
from a state with a transition count, stop at a terminal state, fail
loudly when the count reaches the bound or a table entry is missing.
Returns the final state together with the number of transitions
executed. -/
def execute_state_machine (o : Nat → Decision → DecisionOutcome) (state : Decision)
    (count : Nat) : Except SMFault (Decision × Nat) :=
  if state.is_terminal then .ok (state, count)
  else if MAX_STATE_MACHINE_TRANSITIONS ≤ count + 1 then .error .panicked
  else
    match smStep o count state with
    | none => .error .missingEntry
    | some next => execute_state_machine o next (count + 1)
termination_by MAX_STATE_MACHINE_TRANSITIONS - count
decreasing_by simp [MAX_STATE_MACHINE_TRANSITIONS] at *; omega

/-- The depth of a decision node in the (acyclic) decision graph: an
explicit variant function, strictly decreasing along every transition. -/
def rank : Decision → Nat
  | .Start => 41
  | .End _ => 0
  | .A3Options => 0
  | .B3Options => 30
  | .B4RequestEntityTooLarge => 31
  | .B5UnknownContentType => 32
  | .B6UnsupportedContentHeader => 33
  | .B7Forbidden => 34
  | .B8Authorized => 35
  | .B9MalformedRequest => 36
  | .B10MethodAllowed => 37
  | .B11UriTooLong => 38
  | .B12KnownMethod => 39
  | .B13Available => 40
  | .C3AcceptExists => 29
  | .C4AcceptableMediaTypeAvailable => 28
  | .D4AcceptLanguageExists => 27
  | .D5AcceptableLanguageAvailable => 26
  | .E5AcceptCharsetExists => 25
  | .E6AcceptableCharsetAvailable => 24
  | .F6AcceptEncodingExists => 23
  | .F7AcceptableEncodingAvailable => 22
  | .G7ResourceExists => 21
  | .G8IfMatchExists => 20
  | .G9IfMatchStarExists => 19
  | .G11EtagInIfMatch => 18
  | .H7IfMatchStarExists => 11
  | .H10IfUnmodifiedSinceExists => 17
  | .H11IfUnmodifiedSinceValid => 16
  | .H12LastModifiedGreaterThanUMS => 15
  | .I4HasMovedPermanently => 5
  | .I12IfNoneMatchExists => 14
  | .I13IfNoneMatchStarExists => 13
  | .I7Put => 10
  | .J18GetHead => 1
  | .K5HasMovedPermanently => 8
  | .K7ResourcePreviouslyExisted => 9
  | .K13ETagInIfNoneMatch => 12
  | .L5HasMovedTemporarily => 7
  | .L7Post => 6
  | .L13IfModifiedSinceExists => 11
  | .L14IfModifiedSinceValid => 10
  | .L15IfModifiedSinceGreaterThanNow => 9
  | .L17IfLastModifiedGreaterThanMS => 8
  | .M5Post => 6
  | .M7PostToMissingResource => 5
  | .M16Delete => 7
  | .M20DeleteEnacted => 3
  | .N5PostToMissingResource => 5
  | .N11Redirect => 4
  | .N16Post => 6
  | .O14Conflict => 4
  | .O16Put => 5
  | .O18MultipleRepresentations => 1
  | .O20ResponseHasBody => 2
  | .P3Conflict => 4
  | .P11NewResource => 3

lemma rank_outcomeTarget_lt (d : Decision) (t : Transition) (r : DecisionOutcome)
    (h : TRANSITION_MAP d = some t) : rank (outcomeTarget t r) < rank d := by
  cases d <;> simp only [TRANSITION_MAP, Option.some.injEq, reduceCtorEq] at h <;>
    subst h <;> cases r <;> simp [outcomeTarget, rank]

lemma terminal_of_rank_eq_zero (d : Decision) (h : rank d = 0) : d.is_terminal = true := by
  cases d <;> simp_all [rank, Decision.is_terminal]

lemma transition_map_total (d : Decision) (h : d.is_terminal = false) :
    (TRANSITION_MAP d).isSome = true := by
  cases d <;> simp_all [TRANSITION_MAP, Decision.is_terminal]

lemma execute_ok_of_rank_le (k : Nat) :
    ∀ (o : Nat → Decision → DecisionOutcome) (d : Decision) (c : Nat),
      rank d ≤ k → rank d + c + 1 ≤ MAX_STATE_MACHINE_TRANSITIONS →
      ∃ te n, execute_state_machine o d c = .ok (te, n) ∧ te.is_terminal = true ∧
        n ≤ c + rank d := by
  induction k with
  | zero =>
    intro o d c hk _
    have hterm : d.is_terminal = true := terminal_of_rank_eq_zero d (Nat.le_zero.mp hk)
    refine ⟨d, c, ?_, hterm, Nat.le_add_right c (rank d)⟩
    unfold execute_state_machine
    simp [hterm]
  | succ k ih =>
    intro o d c hk hbound
    by_cases hterm : d.is_terminal = true
    · refine ⟨d, c, ?_, hterm, Nat.le_add_right c (rank d)⟩
      unfold execute_state_machine
      simp [hterm]
    · have hterm' : d.is_terminal = false := by simpa using hterm
      have hrpos : 1 ≤ rank d := by
        by_contra hlt
        exact hterm (terminal_of_rank_eq_zero d (by omega))
      obtain ⟨t, ht⟩ := Option.isSome_iff_exists.mp (transition_map_total d hterm')
      have hstep : smStep o c d = some (outcomeTarget t (o c d)) := by
        simp [smStep, ht]
      have hlt : rank (outcomeTarget t (o c d)) < rank d :=
        rank_outcomeTarget_lt d t (o c d) ht
      have hcnt : ¬ MAX_STATE_MACHINE_TRANSITIONS ≤ c + 1 := by
        simp only [MAX_STATE_MACHINE_TRANSITIONS] at hbound ⊢
        omega
      obtain ⟨te, n, hrun, hte, hn⟩ :=
        ih o (outcomeTarget t (o c d)) (c + 1) (by omega) (by omega)
      refine ⟨te, n, ?_, hte, by omega⟩
      rw [execute_state_machine]
      simp [hterm', hcnt, hstep]
      exact hrun

/-- C2: for every oracle resolving the decision predicates (every request
and resource whose callbacks terminate), the state-machine driver started
at Start reaches a terminal node within 100 transitions, returning it
normally, so neither the loud-failure panic taken when the transition
count reaches the bound nor the End(500) branch taken on a missing table
entry is ever executed. -/
theorem execute_state_machine_terminates (o : Nat → Decision → DecisionOutcome) :
    ∃ te n, execute_state_machine o .Start 0 = .ok (te, n) ∧ te.is_terminal = true ∧
      n ≤ MAX_STATE_MACHINE_TRANSITIONS := by
  obtain ⟨te, n, hrun, hte, hn⟩ :=
    execute_ok_of_rank_le 41 o .Start 0 (by simp [rank]) (by simp [rank, MAX_STATE_MACHINE_TRANSITIONS])
  refine ⟨te, n, hrun, hte, ?_⟩
  simp only [rank, MAX_STATE_MACHINE_TRANSITIONS] at hn ⊢
  omega

/-- Whitespace test used to model Rust's str::trim on the characters
that occur in header values. -/
def isSpaceChar (c : Char) : Bool := c = ' ' || c = '\t' || c = '\n' || c = '\r'

/-- Model of Rust's str::trim: drop leading and trailing whitespace. -/
def trimStr (s : Str) : Str :=
  ((s.dropWhile isSpaceChar).reverse.dropWhile isSpaceChar).reverse

/-- Model of Rust's str::split on a single separator character: always
returns at least one piece, the empty string splits to one empty piece. -/
def splitOnChar (sep : Char) : Str → List Str
  | [] => [[]]
  | c :: rest =>
    if c = sep then [] :: splitOnChar sep rest
    else
      match splitOnChar sep rest with
      | [] => [[c]]
      | s :: ss => (c :: s) :: ss

/-- Model of Rust's str::starts_with for string patterns. -/
def strStartsWith : Str → Str → Bool
  | _, [] => true
  | [], _ :: _ => false
  | c :: s, p :: ps => c == p && strStartsWith s ps

/-- Uppercase a modelled string character-wise (model of Rust
str::to_uppercase on the ASCII data handled by the library). -/
def toUpperStr (s : Str) : Str := s.map Char.toUpper

/-- Lowercase a modelled string character-wise (model of Rust
str::to_lowercase on the ASCII data handled by the library). -/
def toLowerStr (s : Str) : Str := s.map Char.toLower

/-- A quality weight, modelled as an explicit non-negative fraction (the
source stores an f32; the weights the library parses are finite decimal
fractions, compared exactly). -/
structure Weight where
  num : Nat
  den : Nat
deriving DecidableEq, Repr

/-- Equality of weights as numbers (model of f32 equality on the parsed
decimal fractions). -/
def weightEqb (a b : Weight) : Bool := a.num * b.den == b.num * a.den

/-- Strict order on weights as numbers (model of the f32 comparison on
the parsed decimal fractions). -/
def weightLtb (a b : Weight) : Bool := decide (a.num * b.den < b.num * a.den)

/-- Whether a weight is strictly positive (the filter weight > 0.0 of
the sorting functions). -/
def weightPosb (w : Weight) : Bool := decide (0 < w.num)

/-- Numeric value of a decimal digit character. -/
def digitVal (c : Char) : Option Nat :=
  if '0' ≤ c ∧ c ≤ '9' then some (c.toNat - '0'.toNat) else none

/-- Parse a non-empty run of decimal digits. -/
def digitsToNat (s : Str) : Option Nat :=
  if s = [] then none
  else
    s.foldl
      (fun acc c =>
        match acc, digitVal c with
        | some n, some d => some (n * 10 + d)
        | _, _ => none)
      (some 0)

/-- Modelled from the spec: the q-value parser of the header module
(headers.rs is not among the sources). The spec says the q parameter is
parsed as a float with 1.0 as the default on parse failure; the model
accepts plain decimal literals (digits, optionally a dot and digits) and
yields 1 for anything else. -/
def parseWeight (s : Str) : Weight :=
  match splitOnChar '.' s with
  | [i] =>
    match digitsToNat i with
    | some n => ⟨n, 1⟩
    | none => ⟨1, 1⟩
  | [i, f] =>
    match digitsToNat i, digitsToNat f with
    | some n, some m => ⟨n * 10 ^ f.length + m, 10 ^ f.length⟩
    | _, _ => ⟨1, 1⟩
  | _ => ⟨1, 1⟩

lemma parseWeight_den_pos (s : Str) : 0 < (parseWeight s).den := by
  unfold parseWeight
  split
  · split <;> simp
  · split <;> simp
  · simp

/-- A parsed header value element (the HeaderValue struct of the header
module): a primary string, a mapping of lowercased parameter names to
values, and a flag recording whether the primary value was quoted. -/
structure HeaderValue where
  value : Str
  params : List (Str × Str)
  quote : Bool
deriving DecidableEq, Repr

/-- Strip one layer of surrounding double quotes when present. -/
def stripQuotes (s : Str) : Str :=
  if 2 ≤ s.length ∧ s.head? = some '"' ∧ s.getLast? = some '"' then
    (s.drop 1).dropLast
  else s

/-- Whether a string is surrounded by double quotes. -/
def isQuoted (s : Str) : Bool :=
  decide (2 ≤ s.length ∧ s.head? = some '"' ∧ s.getLast? = some '"')

/-- Modelled from the spec: HeaderValue::parse_string of the header
module (headers.rs is not among the sources). A raw element is split on
semicolons; the first piece, trimmed, is the primary value, unquoted
with the quote flag set when it is surrounded by double quotes; each
further piece is a parameter, split at its first equals sign, the name
trimmed and lowercased, the value trimmed and unquoted. -/
def HeaderValue.parse_string (s : Str) : HeaderValue :=
  match splitOnChar ';' s with
  | [] => ⟨[], [], false⟩
  | v :: ps =>
    let v := trimStr v
    let params := ps.map (fun p =>
      let p := trimStr p
      let k := toLowerStr (trimStr (p.takeWhile (fun c => !(c == '='))))
      let pv := trimStr ((p.dropWhile (fun c => !(c == '='))).drop 1)
      (k, stripQuotes pv))
    if isQuoted v then ⟨(v.drop 1).dropLast, params, true⟩
    else ⟨v, params, false⟩

/-- A basic header value: just a primary string (HeaderValue::basic of
the header module, modelled from the spec). -/
def HeaderValue.basic (s : Str) : HeaderValue := ⟨s, [], false⟩

/-- Modelled from the spec: HeaderValue::weak_etag of the header module
(headers.rs is not among the sources). When the primary value starts
with the literal W/ and the remainder is a double-quoted token, the
unquoted inner token is returned; otherwise none. -/
def HeaderValue.weak_etag (hv : HeaderValue) : Option Str :=
  if strStartsWith hv.value ['W', '/'] then
    match hv.value.drop 2 with
    | [] => none
    | c :: rest =>
      if c = '"' ∧ rest.getLast? = some '"' then some rest.dropLast else none
  else none

/-- Look up a parameter of a header value by name. -/
def lookupParam (params : List (Str × Str)) (k : Str) : Option Str :=
  (params.find? (fun kv => kv.1 == k)).map (fun kv => kv.2)

/-- Parse a raw comma-separated header into a list of header values
(lib.rs, parse_header_values). -/
def parse_header_values (s : Str) : List HeaderValue :=
  if s = [] then []
  else (splitOnChar ',' s).map (fun p => HeaderValue.parse_string (trimStr p))

/-- A character set with a quality weight (content_negotiation/charset.rs). -/
structure Charset where
  charset : Str
  weight : Weight
deriving DecidableEq, Repr

/-- Charset::parse_string: a bare charset string at weight 1. -/
def Charset.parse_string (s : Str) : Charset := ⟨s, ⟨1, 1⟩⟩

/-- Charset::matches: the acceptor is the wildcard star, or the two
charset names agree case-insensitively. -/
def Charset.matches (self other : Charset) : Bool :=
  other.charset == "*".data || toUpperStr self.charset == toUpperStr other.charset

/-- Charset::to_string. -/
def Charset.to_string (c : Charset) : Str := c.charset

/-- An encoding with a quality weight (content_negotiation/encoding.rs). -/
structure Encoding where
  encoding : Str
  weight : Weight
deriving DecidableEq, Repr

/-- Encoding::parse_string: a bare encoding string at weight 1. -/
def Encoding.parse_string (s : Str) : Encoding := ⟨s, ⟨1, 1⟩⟩

/-- Encoding::matches: the acceptor is the wildcard star, or the two
encoding names agree case-insensitively. -/
def Encoding.matches (self other : Encoding) : Bool :=
  other.encoding == "*".data || toLowerStr self.encoding == toLowerStr other.encoding

/-- Encoding::to_string. -/
def Encoding.to_string (e : Encoding) : Str := e.encoding

/-- The derived structural equality on encodings used by Vec::contains
in matching_encoding: the encoding strings equal verbatim and the
weights equal as numbers. -/
def encodingEqb (a b : Encoding) : Bool :=
  a.encoding == b.encoding && weightEqb a.weight b.weight

/-- Modelled from the spec: HeaderValue::as_charset of the header module
(headers.rs is not among the sources): the primary value as the charset
name with the parsed q parameter as the weight, 1 when absent. -/
def HeaderValue.as_charset (hv : HeaderValue) : Charset :=
  match lookupParam hv.params "q".data with
  | some w => ⟨hv.value, parseWeight w⟩
  | none => ⟨hv.value, ⟨1, 1⟩⟩

/-- Modelled from the spec: HeaderValue::as_encoding of the header
module (headers.rs is not among the sources): the primary value as the
encoding name with the parsed q parameter as the weight, 1 when absent. -/
def HeaderValue.as_encoding (hv : HeaderValue) : Encoding :=
  match lookupParam hv.params "q".data with
  | some w => ⟨hv.value, parseWeight w⟩
  | none => ⟨hv.value, ⟨1, 1⟩⟩

/-- Stable insertion of an element into a list sorted by descending
weight. -/
def insertWeightDesc (key : α → Weight) (x : α) : List α → List α
  | [] => [x]
  | y :: ys =>
    if weightLtb (key x) (key y) then y :: insertWeightDesc key x ys
    else x :: y :: ys

/-- Stable sort by descending weight (model of the itertools sorted_by
calls with the descending weight comparator). -/
def sortWeightDesc (key : α → Weight) : List α → List α
  | [] => []
  | x :: xs => insertWeightDesc key x (sortWeightDesc key xs)

lemma mem_insertWeightDesc (key : α → Weight) (x a : α) (l : List α) :
    a ∈ insertWeightDesc key x l ↔ a = x ∨ a ∈ l := by
  induction l with
  | nil => simp [insertWeightDesc]
  | cons y ys ih =>
    by_cases h : weightLtb (key x) (key y) = true
    · simp [insertWeightDesc, h, ih]
      try tauto
    · simp only [Bool.not_eq_true] at h
      simp [insertWeightDesc, h]
      try tauto

lemma mem_sortWeightDesc (key : α → Weight) (a : α) (l : List α) :
    a ∈ sortWeightDesc key l ↔ a ∈ l := by
  induction l with
  | nil => simp [sortWeightDesc]
  | cons x xs ih => simp [sortWeightDesc, mem_insertWeightDesc, ih]

/-- Cartesian product of two lists, first list outermost (model of
itertools cartesian_product). -/
def cartProd : List α → List β → List (α × β)
  | [], _ => []
  | a :: rest, l2 => l2.map (fun b => (a, b)) ++ cartProd rest l2

lemma mem_cartProd (p : α × β) (l1 : List α) (l2 : List β) :
    p ∈ cartProd l1 l2 ↔ p.1 ∈ l1 ∧ p.2 ∈ l2 := by
  induction l1 with
  | nil => simp [cartProd]
  | cons a rest ih =>
    cases p with
    | mk x y =>
      simp [cartProd, ih]
      try tauto

/-- The request carrier (context/request.rs), with the headers hash map
modelled as an association list. -/
structure Request where
  request_path : Str
  base_path : Str
  method : Str
  headers : List (Str × List HeaderValue)
  body : Option (List Nat)
  query : List (Str × List Str)
deriving DecidableEq, Repr

/-- Request::find_header: case-insensitive lookup of a header's value
list, empty when absent (context/request.rs). -/
def Request.find_header (r : Request) (header : Str) : List HeaderValue :=
  match r.headers.find? (fun kv => toUpperStr kv.1 == toUpperStr header) with
  | some kv => kv.2
  | none => []

/-- Request::has_header: case-insensitive presence test
(context/request.rs). -/
def Request.has_header (r : Request) (header : Str) : Bool :=
  (r.headers.find? (fun kv => toUpperStr kv.1 == toUpperStr header)).isSome

/-- Request::has_accept_charset_header (context/request.rs). -/
def Request.has_accept_charset_header (r : Request) : Bool :=
  r.has_header "ACCEPT-CHARSET".data

/-- Request::accept_charset (context/request.rs). -/
def Request.accept_charset (r : Request) : List HeaderValue :=
  r.find_header "ACCEPT-CHARSET".data

/-- Request::has_accept_encoding_header (context/request.rs). -/
def Request.has_accept_encoding_header (r : Request) : Bool :=
  r.has_header "ACCEPT-ENCODING".data

/-- Request::accept_encoding (context/request.rs). -/
def Request.accept_encoding (r : Request) : List HeaderValue :=
  r.find_header "ACCEPT-ENCODING".data

/-- The static configuration lists of a resource descriptor
(resource.rs); the callbacks are abstracted away where the claims need
them. -/
structure Resource where
  produces : List Str
  languages_provided : List Str
  charsets_provided : List Str
  encodings_provided : List Str
  variances : List Str
deriving DecidableEq, Repr

/-- The defaulting step of sort_media_charsets
(content_negotiation/mod.rs): append ISO-8859-1 unless the list already
holds the star wildcard or ISO-8859-1 in any casing. -/
def charsetDefaulted (charsets : List HeaderValue) : List HeaderValue :=
  if (charsets.find? (fun cs =>
        cs.value == "*".data || toUpperStr cs.value == "ISO-8859-1".data)).isSome then
    charsets
  else charsets ++ [HeaderValue.parse_string "ISO-8859-1".data]

/-- sort_media_charsets (content_negotiation/mod.rs): default, convert,
drop non-positive weights, sort by descending weight. -/
def sort_media_charsets (charsets : List HeaderValue) : List Charset :=
  sortWeightDesc Charset.weight
    (((charsetDefaulted charsets).map HeaderValue.as_charset).filter
      (fun cs => weightPosb cs.weight))

/-- matching_charset (content_negotiation/mod.rs). -/
def matching_charset (resource : Resource) (request : Request) : Option Str :=
  if request.has_accept_charset_header && !request.accept_charset.isEmpty then
    let acceptable := sort_media_charsets request.accept_charset
    if resource.charsets_provided.isEmpty then
      acceptable.head?.map Charset.to_string
    else
      (((cartProd acceptable resource.charsets_provided).map
          (fun pr =>
            let provided := Charset.parse_string pr.2
            (provided, provided.matches pr.1))).find?
        (fun v => v.2)).map (fun v => v.1.to_string)
  else if resource.charsets_provided.isEmpty then some "ISO-8859-1".data
  else resource.charsets_provided.head?

/-- The defaulting step of sort_encodings (content_negotiation/mod.rs):
append identity unless the list already holds the star wildcard or
identity in any casing. -/
def encodingDefaulted (encodings : List HeaderValue) : List HeaderValue :=
  if (encodings.find? (fun e =>
        e.value == "*".data || toLowerStr e.value == "identity".data)).isSome then
    encodings
  else encodings ++ [HeaderValue.parse_string "identity".data]

/-- sort_encodings (content_negotiation/mod.rs): default, convert, drop
non-positive weights, sort by descending weight. -/
def sort_encodings (encodings : List HeaderValue) : List Encoding :=
  sortWeightDesc Encoding.weight
    (((encodingDefaulted encodings).map HeaderValue.as_encoding).filter
      (fun e => weightPosb e.weight))

/-- matching_encoding (content_negotiation/mod.rs); the Vec::contains
test on the acceptable encodings uses the derived structural equality,
modelled by encodingEqb. -/
def matching_encoding (resource : Resource) (request : Request) : Option Str :=
  let identity := Encoding.parse_string "identity".data
  if request.has_accept_encoding_header then
    let acceptable := sort_encodings request.accept_encoding
    if resource.encodings_provided.isEmpty then
      if acceptable.any (fun e => encodingEqb e identity) then some "identity".data
      else none
    else
      (((cartProd acceptable resource.encodings_provided).map
          (fun pr =>
            let provided := Encoding.parse_string pr.2
            (provided, provided.matches pr.1))).find?
        (fun v => v.2)).map (fun v => v.1.to_string)
  else if resource.encodings_provided.isEmpty then some "identity".data
  else resource.encodings_provided.head?

lemma as_encoding_den_pos (hv : HeaderValue) :
    0 < (HeaderValue.as_encoding hv).weight.den := by
  unfold HeaderValue.as_encoding
  split
  · exact parseWeight_den_pos _
  · simp

lemma weightPos_of_eqb_identity (hv : HeaderValue)
    (h : encodingEqb (HeaderValue.as_encoding hv)
      (Encoding.parse_string "identity".data) = true) :
    weightPosb (HeaderValue.as_encoding hv).weight = true := by
  have hden := as_encoding_den_pos hv
  unfold encodingEqb weightEqb Encoding.parse_string at h
  simp only [Bool.and_eq_true, beq_iff_eq, decide_eq_true_eq] at h
  simp only [weightPosb, decide_eq_true_eq]
  omega

/-- The request of the concrete scenario of C5: Accept-Charset
iso-8859-5, iso-8859-1;q=0. -/
def reqC5ex : Request :=
  ⟨"/".data, "/".data, "GET".data,
    [("Accept-Charset".data, parse_header_values "iso-8859-5, iso-8859-1;q=0".data)],
    none, []⟩

/-- The resource of the concrete scenario of C5: charsets_provided
UTF-8 and US-ASCII. -/
def resC5ex : Resource := ⟨[], [], ["UTF-8".data, "US-ASCII".data], [], []⟩

/-- C5: for every request with a non-empty Accept-Charset header and
every resource with a non-empty charsets_provided list, matching_charset
returns none exactly when, after appending ISO-8859-1 at weight 1
(unless ISO-8859-1 or the star wildcard is already present) and dropping
the entries of weight 0, no remaining acceptable charset matches any
provided charset case-insensitively, the star matching anything. -/
theorem matching_charset_none_iff (request : Request) (resource : Resource)
    (h1 : request.has_accept_charset_header = true)
    (h2 : request.accept_charset ≠ [])
    (h3 : resource.charsets_provided ≠ []) :
    matching_charset resource request = none ↔
      ∀ a ∈ (charsetDefaulted request.accept_charset).map HeaderValue.as_charset,
        weightPosb a.weight = true →
        ∀ p ∈ resource.charsets_provided,
          (a.charset == "*".data || toUpperStr p == toUpperStr a.charset) = false := by
  have hc : (request.has_accept_charset_header && !request.accept_charset.isEmpty) = true := by
    simp [h1, h2]
  have hp : resource.charsets_provided.isEmpty = false := by
    simpa using h3
  have hstep : matching_charset resource request =
      (((cartProd (sort_media_charsets request.accept_charset)
          resource.charsets_provided).map
          (fun pr =>
            let provided := Charset.parse_string pr.2
            (provided, provided.matches pr.1))).find?
        (fun v => v.2)).map (fun v => v.1.to_string) := by
    unfold matching_charset
    simp [hc, hp]
  rw [hstep, Option.map_eq_none', List.find?_eq_none]
  constructor
  · intro h a ha hpos p hpm
    have haA : a ∈ sort_media_charsets request.accept_charset := by
      unfold sort_media_charsets
      rw [mem_sortWeightDesc]
      exact List.mem_filter.mpr ⟨ha, hpos⟩
    have hmem : (Charset.parse_string p, (Charset.parse_string p).matches a) ∈
        ((cartProd (sort_media_charsets request.accept_charset)
          resource.charsets_provided).map
          (fun pr =>
            let provided := Charset.parse_string pr.2
            (provided, provided.matches pr.1))) :=
      List.mem_map.mpr ⟨(a, p), (mem_cartProd _ _ _).mpr ⟨haA, hpm⟩, rfl⟩
    have hfalse := h _ hmem
    simpa [Charset.matches, Charset.parse_string] using hfalse
  · intro h v hv
    obtain ⟨pr, hpr, rfl⟩ := List.mem_map.mp hv
    obtain ⟨ha, hpm⟩ := (mem_cartProd _ _ _).mp hpr
    have ha' := (mem_sortWeightDesc Charset.weight pr.1 _).mp ha
    obtain ⟨hmem, hpos⟩ := List.mem_filter.mp ha'
    have hfalse := h pr.1 hmem hpos pr.2 hpm
    simpa [Charset.matches, Charset.parse_string] using hfalse

/-- Witness for C5: the concrete scenario Accept-Charset iso-8859-5,
iso-8859-1;q=0 against charsets_provided UTF-8, US-ASCII yields no
match, and the E6 decision node routes a false outcome to End(406). -/
theorem matching_charset_none_iff_witness :
    matching_charset resC5ex reqC5ex = none ∧
    TRANSITION_MAP .E6AcceptableCharsetAvailable =
      some (.Branch .F6AcceptEncodingExists (.End 406)) := by
  refine ⟨?_, rfl⟩
  exact (matching_charset_none_iff reqC5ex resC5ex (by decide) (by decide)
    (by decide)).mpr (by decide)

/-- The request of the C4 counterexample: Accept-Encoding IDENTITY. -/
def reqC4ex : Request :=
  ⟨"/".data, "/".data, "GET".data,
    [("Accept-Encoding".data, parse_header_values "IDENTITY".data)], none, []⟩

/-- A resource providing no encodings. -/
def resC4ex : Resource := ⟨[], [], [], [], []⟩

/-- The request of the C4 witness: Accept-Encoding identity. -/
def reqC4wit : Request :=
  ⟨"/".data, "/".data, "GET".data,
    [("Accept-Encoding".data, parse_header_values "identity".data)], none, []⟩

/-- Counterexample to C4 as stated: the request carries an
Accept-Encoding header whose list contains identity case-insensitively
after the defaulting rule (the entry IDENTITY), the resource provides no
encodings, yet matching_encoding returns none instead of identity,
because the presence test compares entries with the derived structural
equality, which is case-sensitive. -/
theorem matching_encoding_claim_counterexample :
    reqC4ex.has_accept_encoding_header = true ∧
    resC4ex.encodings_provided = [] ∧
    (encodingDefaulted reqC4ex.accept_encoding).any
      (fun hv => toLowerStr hv.value == "identity".data) = true ∧
    matching_encoding resC4ex reqC4ex = none := by decide

/-- C4 (amended): for every request carrying an Accept-Encoding header
and every resource whose encodings_provided list is empty,
matching_encoding returns identity exactly when the client's list after
the defaulting rule (identity at weight 1 appended when neither identity
nor the star is present) contains an entry that is exactly the encoding
identity — compared case-sensitively and with weight exactly 1, as the
structural equality of the contains test does — and otherwise returns
none. -/
theorem matching_encoding_empty_provided (request : Request) (resource : Resource)
    (h1 : request.has_accept_encoding_header = true)
    (h2 : resource.encodings_provided = []) :
    (matching_encoding resource request = some "identity".data ↔
      ∃ hv ∈ encodingDefaulted request.accept_encoding,
        encodingEqb (HeaderValue.as_encoding hv)
          (Encoding.parse_string "identity".data) = true) ∧
    (matching_encoding resource request = some "identity".data ∨
      matching_encoding resource request = none) := by
  have hp : resource.encodings_provided.isEmpty = true := by simp [h2]
  have hstep : matching_encoding resource request =
      (if (sort_encodings request.accept_encoding).any
          (fun e => encodingEqb e (Encoding.parse_string "identity".data)) then
        some "identity".data
      else none) := by
    unfold matching_encoding
    simp [h1, hp]
  have hany : (sort_encodings request.accept_encoding).any
      (fun e => encodingEqb e (Encoding.parse_string "identity".data)) = true ↔
      ∃ hv ∈ encodingDefaulted request.accept_encoding,
        encodingEqb (HeaderValue.as_encoding hv)
          (Encoding.parse_string "identity".data) = true := by
    rw [List.any_eq_true]
    constructor
    · rintro ⟨e, he, heq⟩
      have he' := (mem_sortWeightDesc Encoding.weight e _).mp he
      obtain ⟨hmem, _⟩ := List.mem_filter.mp he'
      obtain ⟨hv, hhv, rfl⟩ := List.mem_map.mp hmem
      exact ⟨hv, hhv, heq⟩
    · rintro ⟨hv, hhv, heq⟩
      refine ⟨HeaderValue.as_encoding hv, ?_, heq⟩
      unfold sort_encodings
      rw [mem_sortWeightDesc]
      exact List.mem_filter.mpr
        ⟨List.mem_map.mpr ⟨hv, hhv, rfl⟩, weightPos_of_eqb_identity hv heq⟩
  rw [hstep]
  by_cases h : (sort_encodings request.accept_encoding).any
      (fun e => encodingEqb e (Encoding.parse_string "identity".data)) = true
  · rw [if_pos h]
    exact ⟨⟨fun _ => hany.mp h, fun _ => rfl⟩, Or.inl rfl⟩
  · rw [if_neg h]
    refine ⟨⟨?_, ?_⟩, Or.inr rfl⟩
    · intro hcontra
      exact absurd hcontra (by simp)
    · intro hex
      exact absurd (hany.mpr hex) h

/-- Witness for C4 (amended): a request accepting exactly identity
against a resource providing no encodings selects identity. -/
theorem matching_encoding_empty_provided_witness :
    matching_encoding resC4ex reqC4wit = some "identity".data := by
  exact (matching_encoding_empty_provided reqC4wit resC4ex (by decide) rfl).1.mpr
    (by decide)

/-- The response carrier (context/response.rs), with the header tree
map modelled as an association list. -/
structure Response where
  status : Nat
  headers : List (Str × List HeaderValue)
  body : Option (List Nat)
deriving DecidableEq, Repr

/-- Insert-or-replace of the response header map (BTreeMap::insert). -/
def insertReplace (m : List (Str × List HeaderValue)) (k : Str)
    (v : List HeaderValue) : List (Str × List HeaderValue) :=
  match m with
  | [] => [(k, v)]
  | (k0, v0) :: rest =>
    if k0 == k then (k, v) :: rest else (k0, v0) :: insertReplace rest k v

/-- Response::has_header: case-insensitive presence test
(context/response.rs). -/
def Response.has_header (r : Response) (header : Str) : Bool :=
  (r.headers.find? (fun kv => toUpperStr kv.1 == toUpperStr header)).isSome

/-- Response::add_header (context/response.rs). -/
def Response.add_header (r : Response) (header : Str) (values : List HeaderValue) :
    Response :=
  ⟨r.status, insertReplace r.headers header values, r.body⟩

/-- Response::has_body (context/response.rs): a body is present and
non-empty. -/
def Response.has_body (r : Response) : Bool :=
  match r.body with
  | none => false
  | some b => !b.isEmpty

/-- Exact-key lookup in the response headers. -/
def lookupHeaderExact (r : Response) (k : Str) : Option (List HeaderValue) :=
  (r.headers.find? (fun kv => kv.1 == k)).map (fun kv => kv.2)

/-- De-duplication keeping first occurrences, with the set of elements
already seen carried along. -/
def uniqueFirstAux (seen : List HeaderValue) : List HeaderValue → List HeaderValue
  | [] => []
  | x :: t =>
    if seen.contains x then uniqueFirstAux seen t
    else x :: uniqueFirstAux (x :: seen) t

/-- De-duplication keeping first occurrences (model of the itertools
unique adaptor used on the Vary values). -/
def uniqueFirst (l : List HeaderValue) : List HeaderValue := uniqueFirstAux [] l

/-- The raw Vary value collection built by finalise_response (lib.rs):
the parsed variances when no Vary header is set, then the automatic
entries for each negotiation axis with more than one server entry. -/
def varyRaw (resp : Response) (res : Resource) : List HeaderValue :=
  (if !resp.has_header "Vary".data then res.variances.map HeaderValue.parse_string
   else [])
    ++ (if 1 < res.languages_provided.length then
          [HeaderValue.parse_string "Accept-Language".data] else [])
    ++ (if 1 < res.charsets_provided.length then
          [HeaderValue.parse_string "Accept-Charset".data] else [])
    ++ (if 1 < res.encodings_provided.length then
          [HeaderValue.parse_string "Accept-Encoding".data] else [])
    ++ (if 1 < res.produces.length then
          [HeaderValue.parse_string "Accept".data] else [])

/-- The Vary block of finalise_response (lib.rs): when the raw
collection has more than one element, the de-duplicated collection is
stored under Vary. -/
def finalise_vary (resp : Response) (res : Resource) : Response :=
  if 1 < (varyRaw resp res).length then
    resp.add_header "Vary".data (uniqueFirst (varyRaw resp res))
  else resp

lemma find?_insertReplace_self (m : List (Str × List HeaderValue)) (k : Str)
    (v : List HeaderValue) :
    (insertReplace m k v).find? (fun kv => kv.1 == k) = some (k, v) := by
  induction m with
  | nil => simp [insertReplace]
  | cons kv0 rest ih =>
    obtain ⟨k0, v0⟩ := kv0
    by_cases h : k0 == k
    · simp [insertReplace, h, List.find?]
    · simp only [insertReplace, h, Bool.false_eq_true, if_false]
      rw [List.find?_cons_of_neg _ (by simpa using h)]
      exact ih

lemma has_header_add_header_self (r : Response) (k : Str) (v : List HeaderValue) :
    (r.add_header k v).has_header k = true := by
  unfold Response.add_header Response.has_header
  rw [List.find?_isSome]
  refine ⟨(k, v), ?_, by simp⟩
  have h := find?_insertReplace_self r.headers k v
  exact List.mem_of_find?_eq_some h

lemma lookupHeaderExact_add_header_self (r : Response) (k : Str)
    (v : List HeaderValue) :
    lookupHeaderExact (r.add_header k v) k = some v := by
  unfold Response.add_header lookupHeaderExact
  simp [find?_insertReplace_self r.headers k v]

/-- The response of the C3 counterexample: no headers set. -/
def respC3ex : Response := ⟨200, [], none⟩

/-- The resource of the C3 counterexample: the variance Accept-Language
declared both explicitly and automatically via two provided languages. -/
def resC3ex : Resource :=
  ⟨[], ["en".data, "de".data], [], [], ["Accept-Language".data]⟩

/-- Counterexample to C3 as stated: with variances declaring
Accept-Language and two provided languages, the raw Vary collection is
the duplicate pair of Accept-Language entries, whose de-duplication has
a single distinct entry, yet the finalised response carries a Vary
header, because the two-or-more test is applied before de-duplication. -/
theorem finalise_vary_claim_counterexample :
    (finalise_vary respC3ex resC3ex).has_header "Vary".data = true ∧
    (uniqueFirst (varyRaw respC3ex resC3ex)).length = 1 := by decide

/-- C3 (amended): after the Vary block of response finalisation the
response carries a Vary header if and only if a Vary header was already
present beforehand or the collection built from resource.variances
(only when Vary was not already set) plus the automatic entries
(Accept-Language when languages_provided has more than one entry,
Accept-Charset when charsets_provided has more than one, Accept-Encoding
when encodings_provided has more than one, Accept when produces has more
than one) contains, before de-duplication, two or more entries; when the
collection has two or more entries the emitted Vary value is the
de-duplicated collection, first occurrences kept. -/
theorem finalise_vary_amended (resp : Response) (res : Resource) :
    ((finalise_vary resp res).has_header "Vary".data = true ↔
      (resp.has_header "Vary".data = true ∨ 2 ≤ (varyRaw resp res).length)) ∧
    (2 ≤ (varyRaw resp res).length →
      lookupHeaderExact (finalise_vary resp res) "Vary".data =
        some (uniqueFirst (varyRaw resp res))) := by
  by_cases h : 1 < (varyRaw resp res).length
  · have hfin : finalise_vary resp res =
        resp.add_header "Vary".data (uniqueFirst (varyRaw resp res)) := by
      unfold finalise_vary
      rw [if_pos h]
    rw [hfin]
    constructor
    · constructor
      · intro _
        exact Or.inr h
      · intro _
        exact has_header_add_header_self resp _ _
    · intro _
      exact lookupHeaderExact_add_header_self resp _ _
  · have hfin : finalise_vary resp res = resp := by
      unfold finalise_vary
      rw [if_neg h]
    rw [hfin]
    constructor
    · constructor
      · intro hv
        exact Or.inl hv
      · rintro (hv | hlen)
        · exact hv
        · omega
    · intro hlen
      omega

/-- The response of the C3 witness: no headers set. -/
def respC3wit : Response := ⟨200, [], none⟩

/-- The resource of the C3 witness: two distinct variances. -/
def resC3wit : Resource :=
  ⟨[], [], [], [], ["Header-A".data, "Header-B".data]⟩

/-- Witness for C3 (amended): two distinct variances yield a Vary header
holding the de-duplicated collection. -/
theorem finalise_vary_amended_witness :
    (finalise_vary respC3wit resC3wit).has_header "Vary".data = true ∧
    lookupHeaderExact (finalise_vary respC3wit resC3wit) "Vary".data =
      some (uniqueFirst (varyRaw respC3wit resC3wit)) := by
  have h := finalise_vary_amended respC3wit resC3wit
  exact ⟨h.1.mpr (Or.inr (by decide)), h.2 (by decide)⟩

/-- The evaluation of the O20ResponseHasBody decision node (lib.rs,
execute_decision): wrap the has_body test of the response. -/
def executeDecisionO20 (resp : Response) : DecisionOutcome :=
  if resp.has_body then .isTrue else .isFalse

/-- C10: Response::has_body is true exactly when the body is present and
non-empty; the O20ResponseHasBody node branches to
O18MultipleRepresentations on true and End(204) on false, so a context
whose response body is an empty byte sequence takes the false branch to
the terminal End(204), exactly as when the body is absent. -/
theorem response_has_body_spec :
    (∀ resp : Response, resp.has_body = true ↔ ∃ b, resp.body = some b ∧ b ≠ []) ∧
    TRANSITION_MAP .O20ResponseHasBody =
      some (.Branch .O18MultipleRepresentations (.End 204)) ∧
    (∀ resp : Response, resp.body = some [] →
      outcomeTarget (.Branch .O18MultipleRepresentations (.End 204))
        (executeDecisionO20 resp) = .End 204) ∧
    (∀ resp : Response, resp.body = none →
      outcomeTarget (.Branch .O18MultipleRepresentations (.End 204))
        (executeDecisionO20 resp) = .End 204) ∧
    (Decision.End 204).is_terminal = true := by
  refine ⟨?_, rfl, ?_, ?_, rfl⟩
  · intro resp
    cases hb : resp.body with
    | none => simp [Response.has_body, hb]
    | some b => simp [Response.has_body, hb, List.isEmpty_iff]
  · intro resp hb
    simp [executeDecisionO20, Response.has_body, hb, outcomeTarget]
  · intro resp hb
    simp [executeDecisionO20, Response.has_body, hb, outcomeTarget]

/-- Witness for C10: a response with an empty byte-sequence body and one
with no body both step from O20ResponseHasBody to End(204). -/
theorem response_has_body_spec_witness :
    outcomeTarget (.Branch .O18MultipleRepresentations (.End 204))
      (executeDecisionO20 ⟨200, [], some []⟩) = .End 204 ∧
    outcomeTarget (.Branch .O18MultipleRepresentations (.End 204))
      (executeDecisionO20 ⟨200, [], none⟩) = .End 204 :=
  ⟨response_has_body_spec.2.2.1 ⟨200, [], some []⟩ rfl,
    response_has_body_spec.2.2.2.1 ⟨200, [], none⟩ rfl⟩

/-- The per-entry test of resource_etag_matches_header_values (lib.rs):
an entry prefixed with W/ is unwrapped to its inner token before comparison;
the unconditional unwrap of the weak value is modelled by none when the
entry lacks a double-quoted token (the panic). Other entries are
compared verbatim. -/
def etagEntryTest (etag : Str) (v : HeaderValue) : Option Bool :=
  if strStartsWith v.value ['W', '/'] then v.weak_etag.map (fun w => w == etag)
  else some (v.value == etag)

/-- Sequential search of the header entries for an ETag match (the find
of resource_etag_matches_header_values in lib.rs); none models a panic
reached before any match. -/
def findEtagMatch (etag : Str) : List HeaderValue → Option Bool
  | [] => some false
  | v :: rest =>
    match etagEntryTest etag v with
    | none => none
    | some true => some true
    | some false => findEtagMatch etag rest

/-- resource_etag_matches_header_values (lib.rs), over the generate_etag
callback result and the header's value list; none models the weak-etag
unwrap panic. -/
def resource_etag_matches_header_values (etag? : Option Str)
    (vals : List HeaderValue) : Option Bool :=
  match etag? with
  | some etag => findEtagMatch etag vals
  | none => some false

/-- Counterexample to C6 as stated: for the resource ETag W/x, the
strong header entry with primary value W/x (the parse of the quoted
entry) does not satisfy the match test by verbatim comparison; the test
takes the weak branch because the value starts with W/, and the unwrap
of the absent weak token panics. -/
theorem etag_match_claim_counterexample :
    HeaderValue.parse_string "\"W/x\"".data = ⟨"W/x".data, [], true⟩ ∧
    resource_etag_matches_header_values (some "W/x".data)
      [HeaderValue.parse_string "\"W/x\"".data] = none := by decide

/-- C6 (amended): for a resource ETag E that does not itself start with
W/, the strong header entry with primary value E satisfies the match
test by verbatim comparison; for every resource ETag E, the weak entry
with primary value W/ followed by the double-quoted E satisfies the
test through unwrapping; an entry matching neither way fails the test,
provided an entry prefixed with W/ wraps a double-quoted token (otherwise the
unwrap panics); and when generate_etag returns none the test fails for
every entry list without inspecting it. -/
theorem etag_match_amended :
    (∀ E : Str, strStartsWith E ['W', '/'] = false →
      etagEntryTest E ⟨E, [], true⟩ = some true) ∧
    (∀ E : Str,
      etagEntryTest E ⟨'W' :: '/' :: '"' :: (E ++ ['"']), [], false⟩ = some true) ∧
    (∀ (E : Str) (v : HeaderValue), v.value ≠ E → v.weak_etag ≠ some E →
      (strStartsWith v.value ['W', '/'] = true → v.weak_etag.isSome = true) →
      etagEntryTest E v = some false) ∧
    (∀ vals : List HeaderValue,
      resource_etag_matches_header_values none vals = some false) := by
  refine ⟨?_, ?_, ?_, fun vals => rfl⟩
  · intro E h
    simp [etagEntryTest, h]
  · intro E
    have hsw : strStartsWith ('W' :: '/' :: '"' :: (E ++ ['"'])) ['W', '/'] = true := by
      simp [strStartsWith]
    have hdrop : ('W' :: '/' :: '"' :: (E ++ ['"'])).drop 2 = '"' :: (E ++ ['"']) := rfl
    simp only [etagEntryTest, HeaderValue.weak_etag, hsw, if_true, hdrop]
    rw [if_pos ⟨trivial, List.getLast?_concat E⟩]
    simp [List.dropLast_concat]
  · intro E v hne hweak hwf
    by_cases hs : strStartsWith v.value ['W', '/'] = true
    · obtain ⟨w, hw⟩ := Option.isSome_iff_exists.mp (hwf hs)
      have hwne : w ≠ E := by
        intro hcontra
        exact hweak (hcontra ▸ hw)
      simp [etagEntryTest, hs, hw, hwne]
    · simp only [Bool.not_eq_true] at hs
      simp [etagEntryTest, hs, hne]

/-- Witness for C6 (amended): the resource ETag abc matches the strong
entry with value abc and the weak entry with value W/ followed by the
quoted abc, and fails on a non-matching strong entry. -/
theorem etag_match_amended_witness :
    etagEntryTest "abc".data ⟨"abc".data, [], true⟩ = some true ∧
    etagEntryTest "abc".data ⟨"W/\"abc\"".data, [], false⟩ = some true ∧
    etagEntryTest "abc".data ⟨"xyz".data, [], true⟩ = some false := by
  refine ⟨etag_match_amended.1 "abc".data (by decide), ?_,
    etag_match_amended.2.2.1 "abc".data ⟨"xyz".data, [], true⟩ (by decide)
      (by decide) (by decide)⟩
  exact etag_match_amended.2.1 "abc".data

/-- sanitise_path (lib.rs): split on slashes and drop empty segments. -/
def sanitise_path (p : Str) : List Str :=
  (splitOnChar '/' p).filter (fun seg => !seg.isEmpty)

/-- update_paths_for_resource (lib.rs): store the matched route as the
base path; when the request path is longer, split it at the byte length
of the base and keep the remainder with a leading slash; otherwise the
request path becomes the single slash. -/
def update_paths_for_resource (req : Request) (base : Str) : Request :=
  if base.length < req.request_path.length then
    let subpath := req.request_path.drop base.length
    if strStartsWith subpath ['/'] then
      { req with base_path := base, request_path := subpath }
    else
      { req with base_path := base, request_path := '/' :: subpath }
  else { req with base_path := base, request_path := ['/'] }

/-- match_paths (dispatcher.rs): the routes whose sanitised path is a
prefix of the sanitised request path. -/
def match_paths (routes : List Str) (req : Request) : List Str :=
  routes.filter (fun k => (sanitise_path k).isPrefixOf (sanitise_path req.request_path))

/-- Stable insertion into a list sorted by descending string length. -/
def insertLenDesc (x : Str) : List Str → List Str
  | [] => [x]
  | y :: ys => if x.length < y.length then y :: insertLenDesc x ys else x :: y :: ys

/-- Stable sort by descending string length (the ordered_by_length sort
of dispatch_to_resource). -/
def sortLenDesc : List Str → List Str
  | [] => []
  | x :: xs => insertLenDesc x (sortLenDesc xs)

/-- The route selection of dispatch_to_resource (dispatcher.rs): the
longest matching route. -/
def chosenRoute (routes : List Str) (req : Request) : Option Str :=
  (sortLenDesc (match_paths routes req)).head?

/-- The path-rewriting portion of dispatch_to_resource (dispatcher.rs):
rewrite the request for the chosen route; none when no route matches. -/
def dispatch_update (routes : List Str) (req : Request) : Option Request :=
  (chosenRoute routes req).map (update_paths_for_resource req)

lemma splitOnChar_ne_nil (sep : Char) (s : Str) : splitOnChar sep s ≠ [] := by
  cases s with
  | nil => simp [splitOnChar]
  | cons c rest =>
    by_cases h : c = sep
    · simp [splitOnChar, h]
    · simp only [splitOnChar, h, if_false]
      cases hsp : splitOnChar sep rest <;> simp

lemma splitOnChar_append_sep (sep : Char) (s : Str) :
    splitOnChar sep (s ++ [sep]) = splitOnChar sep s ++ [[]] := by
  induction s with
  | nil => simp [splitOnChar]
  | cons c rest ih =>
    by_cases h : c = sep
    · simp [splitOnChar, h, ih]
    · simp only [List.cons_append, splitOnChar, h, if_false, List.append_eq]
      rw [ih]
      cases hsp : splitOnChar sep rest with
      | nil => exact absurd hsp (splitOnChar_ne_nil sep rest)
      | cons s0 ss => simp

lemma sanitise_append_slash (p : Str) :
    sanitise_path (p ++ ['/']) = sanitise_path p := by
  unfold sanitise_path
  rw [splitOnChar_append_sep]
  simp

/-- The request of the C7 counterexample: a request path with a
duplicated leading slash. -/
def reqC7ex : Request := ⟨"//base/x".data, "/".data, "GET".data, [], none, []⟩

/-- Counterexample to C7 as stated: the route /base matches the request
path //base/x segment-wise, but the byte-offset split of the rewrite
cuts inside a segment, so the concatenation of base_path and
request_path (/base plus /e/x) does not canonicalise to the original
path's segments. -/
theorem dispatch_roundtrip_counterexample :
    (dispatch_update ["/base".data] reqC7ex).isSome = true ∧
    (dispatch_update ["/base".data] reqC7ex).map
        (fun r => sanitise_path (r.base_path ++ r.request_path)) ≠
      some (sanitise_path reqC7ex.request_path) := by decide

/-- C7 (amended): whenever the dispatcher selects a route for a request,
the rewritten request has the route as its base path and a request path
that always begins with a slash, being exactly the slash when the
request path is not longer than the route; and when the original request
path is literally the route followed by a remainder that is empty or
begins with a slash — in particular for canonical paths without
duplicate slashes around the base — the concatenation of base_path and
request_path canonicalises to the original request path. -/
theorem dispatch_roundtrip_amended (routes : List Str) (req : Request) (p : Str)
    (hp : chosenRoute routes req = some p) :
    ∃ req', dispatch_update routes req = some req' ∧
      req'.base_path = p ∧
      strStartsWith req'.request_path ['/'] = true ∧
      (req.request_path.length ≤ p.length → req'.request_path = ['/']) ∧
      (∀ r : Str, req.request_path = p ++ r →
        (r = [] ∨ strStartsWith r ['/'] = true) →
        sanitise_path (req'.base_path ++ req'.request_path) =
          sanitise_path req.request_path) := by
  refine ⟨update_paths_for_resource req p, by simp [dispatch_update, hp], ?_⟩
  unfold update_paths_for_resource
  by_cases hlen : p.length < req.request_path.length
  · rw [if_pos hlen]
    by_cases hs : strStartsWith (req.request_path.drop p.length) ['/'] = true
    · rw [if_pos hs]
      refine ⟨rfl, hs, by omega, ?_⟩
      intro r hr hsl
      rw [hr, List.drop_left]
    · rw [if_neg hs]
      refine ⟨rfl, by simp [strStartsWith], by omega, ?_⟩
      intro r hr hsl
      have hdrop : req.request_path.drop p.length = r := by
        rw [hr, List.drop_left]
      rcases hsl with hsl | hsl
      · rw [hr, hsl] at hlen
        simp at hlen
      · rw [hdrop] at hs
        exact absurd hsl hs
  · rw [if_neg hlen]
    refine ⟨rfl, by simp [strStartsWith], fun _ => rfl, ?_⟩
    intro r hr hsl
    have hr0 : r = [] := by
      rw [hr, List.length_append] at hlen
      have hzero : r.length = 0 := by omega
      exact List.eq_nil_of_length_eq_zero hzero
    rw [hr, hr0]
    simpa using sanitise_append_slash p

/-- The request of the C7 witness: a canonical path under the route. -/
def reqC7wit : Request := ⟨"/base/x".data, "/".data, "GET".data, [], none, []⟩

/-- Witness for C7 (amended): dispatching /base/x over the route /base
rewrites the base path to /base, the request path to a slash-led
remainder, and the concatenation canonicalises to the original path. -/
theorem dispatch_roundtrip_amended_witness :
    ∃ req', dispatch_update ["/base".data] reqC7wit = some req' ∧
      req'.base_path = "/base".data ∧
      strStartsWith req'.request_path ['/'] = true ∧
      sanitise_path (req'.base_path ++ req'.request_path) =
        sanitise_path reqC7wit.request_path := by
  obtain ⟨req', h1, h2, h3, _, h5⟩ :=
    dispatch_roundtrip_amended ["/base".data] reqC7wit "/base".data (by decide)
  exact ⟨req', h1, h2, h3, h5 "/x".data (by decide) (Or.inr (by decide))⟩

/-- Hexadecimal digit value, both cases accepted. -/
def hexDigitVal (c : Char) : Option Nat :=
  if '0' ≤ c ∧ c ≤ '9' then some (c.toNat - '0'.toNat)
  else if 'a' ≤ c ∧ c ≤ 'f' then some (c.toNat - 'a'.toNat + 10)
  else if 'A' ≤ c ∧ c ≤ 'F' then some (c.toNat - 'A'.toNat + 10)
  else none

/-- decode_query (lib.rs): percent-decoding with a plus decoding to a
space; a percent followed by two characters that are not a hexadecimal
pair is left literal, the characters consumed; a trailing percent with
at most one following character is left literal. -/
def decode_query : Str → Str
  | [] => []
  | '%' :: c1 :: c2 :: rest =>
    (match hexDigitVal c1, hexDigitVal c2 with
     | some h1, some h2 => [Char.ofNat (16 * h1 + h2)]
     | _, _ => ['%', c1, c2]) ++ decode_query rest
  | ['%', c1] => ['%', c1]
  | ['%'] => ['%']
  | '+' :: rest => ' ' :: decode_query rest
  | c :: rest => c :: decode_query rest

/-- Split a token at its first equals sign, dropping the sign. -/
def splitFirstEq (kv : Str) : Str × Str :=
  (kv.takeWhile (fun c => !(c == '=')), (kv.dropWhile (fun c => !(c == '='))).drop 1)

/-- The per-token contribution to the query map of parse_query (lib.rs):
an empty token contributes nothing, a token with an equals sign is split
at the first one, a token without one gets the empty value; name and
value are percent-decoded. -/
def tokenToPair (kv : Str) : Option (Str × Str) :=
  if kv.isEmpty then none
  else if kv.contains '=' then
    some (decode_query (splitFirstEq kv).1, decode_query (splitFirstEq kv).2)
  else some (decode_query kv, [])

/-- The entry-api accumulation of parse_query (lib.rs): append the value
to the key's sequence, inserting the key when absent. -/
def insertAppend (m : List (Str × List Str)) (k : Str) (v : Str) :
    List (Str × List Str) :=
  match m with
  | [] => [(k, [v])]
  | (k0, vs) :: rest =>
    if k0 == k then (k0, vs ++ [v]) :: rest else (k0, vs) :: insertAppend rest k v

/-- parse_query (lib.rs): split on ampersands and fold the tokens into
the accumulated map. -/
def parse_query (q : Str) : List (Str × List Str) :=
  if q.isEmpty then []
  else
    (splitOnChar '&' q).foldl
      (fun m kv =>
        match tokenToPair kv with
        | none => m
        | some (k, v) => insertAppend m k v)
      []

/-- Look up the accumulated value sequence of a name in the query map. -/
def lookupVals (m : List (Str × List Str)) (k : Str) : List Str :=
  match m.find? (fun kv => kv.1 == k) with
  | some kv => kv.2
  | none => []

/-- Modelled from the claim wording of C9 (spec section 4.6): every
ampersand-separated token, with no exception for empty tokens, is split
at its first equals sign (a token without one gets the empty value) and
both sides are percent-decoded. -/
def claimQueryEntries (q : Str) : List (Str × Str) :=
  (splitOnChar '&' q).map (fun kv =>
    if kv.contains '=' then
      (decode_query (splitFirstEq kv).1, decode_query (splitFirstEq kv).2)
    else (decode_query kv, []))

/-- The name-to-values reading of the claim-described query mapping. -/
def claimQueryLookup (q : Str) (k : Str) : List Str :=
  ((claimQueryEntries q).filter (fun kv => kv.1 == k)).map (fun kv => kv.2)

/-- The amended entry list: empty tokens are skipped, as parse_query
does. -/
def amendedQueryEntries (q : Str) : List (Str × Str) :=
  (splitOnChar '&' q).filterMap tokenToPair

/-- Counterexample to C9 as stated: on the query string consisting of a
single ampersand, the claim-described algorithm assigns the empty name
two empty values (each empty token, having no equals sign, gets the
empty value), but parse_query skips empty tokens and returns an empty
mapping. -/
theorem parse_query_claim_counterexample :
    lookupVals (parse_query ['&']) [] = [] ∧
    claimQueryLookup ['&'] [] = [[], []] ∧
    parse_query ['&'] = [] := by decide

lemma lookupVals_insertAppend (m : List (Str × List Str)) (k0 : Str) (v : Str)
    (k : Str) :
    lookupVals (insertAppend m k0 v) k =
      if k0 == k then lookupVals m k ++ [v] else lookupVals m k := by
  induction m with
  | nil =>
    by_cases h : k0 == k
    · have hk : k0 = k := by simpa using h
      simp [insertAppend, lookupVals, h, hk, List.find?]
    · simp only [insertAppend, lookupVals, List.find?]
      have hk : (k0 == k) = false := by simpa using h
      simp [hk]
  | cons kv rest ih =>
    obtain ⟨k1, vs⟩ := kv
    by_cases h1 : k1 == k0
    · have hk10 : k1 = k0 := by simpa using h1
      simp only [insertAppend, h1, if_true]
      by_cases h2 : k1 == k
      · have hk1 : k1 = k := by simpa using h2
        have hk0 : (k0 == k) = true := by simp [← hk10, hk1]
        simp [lookupVals, List.find?, h2, hk0]
      · have hk2 : (k1 == k) = false := by simpa using h2
        have hk0 : (k0 == k) = false := by
          subst hk10
          exact hk2
        simp [lookupVals, List.find?, hk2, hk0]
    · have h1' : (k1 == k0) = false := by simpa using h1
      simp only [insertAppend, h1', Bool.false_eq_true, if_false]
      by_cases h2 : k1 == k
      · have hk1 : k1 = k := by simpa using h2
        have hne : k0 ≠ k := by
          intro hcontra
          rw [hk1, hcontra] at h1'
          simp at h1'
        have hk0 : (k0 == k) = false := beq_eq_false_iff_ne.mpr hne
        simp [lookupVals, List.find?, h2, hk0]
      · have hk2 : (k1 == k) = false := by simpa using h2
        simp only [lookupVals, List.find?, hk2] at ih ⊢
        exact ih

lemma lookupVals_foldl (tokens : List Str) (m : List (Str × List Str)) (k : Str) :
    lookupVals
      (tokens.foldl
        (fun m kv =>
          match tokenToPair kv with
          | none => m
          | some (k0, v) => insertAppend m k0 v)
        m) k =
      lookupVals m k ++
        ((tokens.filterMap tokenToPair).filter (fun kv => kv.1 == k)).map
          (fun kv => kv.2) := by
  induction tokens generalizing m with
  | nil => simp
  | cons t ts ih =>
    cases ht : tokenToPair t with
    | none => simp [List.foldl_cons, ht, ih]
    | some kv =>
      obtain ⟨k0, v⟩ := kv
      simp only [List.foldl_cons, ht, List.filterMap_cons]
      rw [ih, lookupVals_insertAppend]
      by_cases h : k0 == k
      · simp [h, List.filter_cons]
      · have h' : (k0 == k) = false := by simpa using h
        simp [h', List.filter_cons]

/-- C9 (amended): parse_query splits on ampersands, splits each
non-empty token at its first equals sign (a token without one gets the
empty value, empty tokens are skipped), percent-decodes name and value
with plus decoding to a space and invalid escapes left literal, and
accumulates repeated names in order: the values recorded for every name
are exactly those of the amended entry list; in particular the query
string of the concrete scenario decodes to a in a b c, k in the empty
string and c in d=e=f, with exactly three names. -/
theorem parse_query_amended :
    (∀ (q : Str) (k : Str),
      lookupVals (parse_query q) k =
        ((amendedQueryEntries q).filter (fun kv => kv.1 == k)).map (fun kv => kv.2)) ∧
    lookupVals (parse_query "a=a%20b%20c&k=&c=d=e=f".data) "a".data =
      ["a b c".data] ∧
    lookupVals (parse_query "a=a%20b%20c&k=&c=d=e=f".data) "k".data = [[]] ∧
    lookupVals (parse_query "a=a%20b%20c&k=&c=d=e=f".data) "c".data =
      ["d=e=f".data] ∧
    (parse_query "a=a%20b%20c&k=&c=d=e=f".data).length = 3 := by
  refine ⟨?_, by decide, by decide, by decide, by decide⟩
  intro q k
  by_cases hq : q.isEmpty
  · have hq' : q = [] := by simpa using hq
    subst hq'
    simp [parse_query, amendedQueryEntries, splitOnChar, tokenToPair, lookupVals,
      List.find?]
  · have hq' : q.isEmpty = false := by simpa using hq
    unfold parse_query amendedQueryEntries
    rw [hq']
    simp only [Bool.false_eq_true, if_false]
    rw [lookupVals_foldl]
    simp [lookupVals, List.find?]

/-- Abstract timestamps for the parsed If-Modified-Since date; the
embedding needs only their presence and an abstract comparison. -/
abbrev Date := Int

/-- The oracle resolving the callback-driven parts of the instrumented
machine: generic decision outcomes, the result of parsing the
If-Modified-Since header at L14, the comparison against the current time
at L15, and arbitrary callback writes to the if_modified_since field at
every other node. -/
structure IMSOracle where
  outcome : Nat → Decision → DecisionOutcome
  parseIMS : Nat → Option Date
  gtNow : Nat → Date → Bool
  mutate : Nat → Decision → Option Date → Option Date

/-- Decision evaluation instrumented with the if_modified_since context
field (execute_decision in lib.rs): L14IfModifiedSinceValid stores the
parsed date into the context exactly when parsing succeeds
(validate_header_date), L15IfModifiedSinceGreaterThanNow unconditionally
unwraps the stored date — none models the panic of the unwrap on an
absent date — and every other node yields its oracle outcome while its
callbacks may rewrite the field. -/
def evalIMS (o : IMSOracle) (c : Nat) (d : Decision) (ims : Option Date) :
    Option (DecisionOutcome × Option Date) :=
  match d with
  | .L14IfModifiedSinceValid =>
    match o.parseIMS c with
    | some dt => some (.isTrue, some dt)
    | none => some (.isFalse, ims)
  | .L15IfModifiedSinceGreaterThanNow =>
    match ims with
    | some dt => some (if o.gtNow c dt then .isTrue else .isFalse, ims)
    | none => none
  | _ => some (o.outcome c d, o.mutate c d ims)

/-- The failure modes of the instrumented driver: the transition-count
panic, the missing-entry End(500) branch, and the panic of the
if_modified_since unwrap at L15. -/
inductive IMSFault
  | panicked
  | missingEntry
  | unwrapPanicked
deriving DecidableEq, Repr

/-- The state machine driver loop instrumented with the
if_modified_since context field (lib.rs, execute_state_machine over
execute_decision). -/
def executeIMS (o : IMSOracle) (state : Decision) (ims : Option Date) (count : Nat) :
    Except IMSFault (Decision × Nat) :=
  if state.is_terminal then .ok (state, count)
  else if MAX_STATE_MACHINE_TRANSITIONS ≤ count + 1 then .error .panicked
  else
    match TRANSITION_MAP state with
    | none => .error .missingEntry
    | some (.To d) => executeIMS o d ims (count + 1)
    | some (.Branch t f) =>
      match evalIMS o count state ims with
      | none => .error .unwrapPanicked
      | some (r, ims') => executeIMS o (outcomeTarget (.Branch t f) r) ims' (count + 1)
termination_by MAX_STATE_MACHINE_TRANSITIONS - count
decreasing_by
  all_goals simp [MAX_STATE_MACHINE_TRANSITIONS] at *
  all_goals omega

lemma to_target_ne_L15 (d d' : Decision) (h : TRANSITION_MAP d = some (.To d')) :
    d' ≠ .L15IfModifiedSinceGreaterThanNow := by
  cases d <;>
    simp only [TRANSITION_MAP, Option.some.injEq, Transition.To.injEq,
      reduceCtorEq] at h <;>
    try exact h.elim
  subst h
  simp

lemma branch_target_L15 (d t f : Decision)
    (h : TRANSITION_MAP d = some (.Branch t f)) :
    (t = .L15IfModifiedSinceGreaterThanNow → d = .L14IfModifiedSinceValid) ∧
      f ≠ .L15IfModifiedSinceGreaterThanNow := by
  cases d <;>
    simp only [TRANSITION_MAP, Option.some.injEq, Transition.Branch.injEq,
      reduceCtorEq, false_and, and_false] at h <;>
    try exact h.elim
  all_goals
    obtain ⟨h1, h2⟩ := h
    subst h1
    subst h2
    simp

lemma evalIMS_isSome (o : IMSOracle) (c : Nat) (d : Decision) (ims : Option Date)
    (h : d = .L15IfModifiedSinceGreaterThanNow → ims.isSome = true) :
    (evalIMS o c d ims).isSome = true := by
  by_cases hd : d = .L15IfModifiedSinceGreaterThanNow
  · subst hd
    obtain ⟨dt, hdt⟩ := Option.isSome_iff_exists.mp (h rfl)
    simp [evalIMS, hdt]
  · cases d <;> first
      | exact absurd rfl hd
      | (rcases hp : o.parseIMS c with _ | dt <;> simp [evalIMS, hp])

lemma ims_invariant_step (o : IMSOracle) (c : Nat) (d : Decision) (ims : Option Date)
    (r : DecisionOutcome) (ims' : Option Date) (t f : Decision)
    (ht : TRANSITION_MAP d = some (.Branch t f))
    (he : evalIMS o c d ims = some (r, ims')) :
    outcomeTarget (.Branch t f) r = .L15IfModifiedSinceGreaterThanNow →
      ims'.isSome = true := by
  intro htgt
  by_cases hd : d = .L14IfModifiedSinceValid
  · subst hd
    simp only [TRANSITION_MAP, Option.some.injEq, Transition.Branch.injEq] at ht
    obtain ⟨ht1, ht2⟩ := ht
    rcases hp : o.parseIMS c with _ | dt <;> simp only [evalIMS, hp] at he
    · obtain ⟨hr, hi⟩ := Prod.mk.injEq .. ▸ (Option.some.injEq .. ▸ he)
      rw [← hr] at htgt
      simp only [outcomeTarget] at htgt
      rw [← ht2] at htgt
      simp at htgt
    · obtain ⟨hr, hi⟩ := Prod.mk.injEq .. ▸ (Option.some.injEq .. ▸ he)
      rw [← hi]
      rfl
  · by_cases hd' : d = .L15IfModifiedSinceGreaterThanNow
    · subst hd'
      rcases hims : ims with _ | dt
      · rw [hims] at he
        simp [evalIMS] at he
      · rw [hims] at he
        simp only [evalIMS] at he
        obtain ⟨hr, hi⟩ := Prod.mk.injEq .. ▸ (Option.some.injEq .. ▸ he)
        rw [← hi]
        rfl
    · cases r with
      | isTrue =>
        simp only [outcomeTarget] at htgt
        exact absurd ((branch_target_L15 d t f ht).1 htgt) hd
      | isFalse =>
        simp only [outcomeTarget] at htgt
        exact absurd htgt (branch_target_L15 d t f ht).2
      | statusCode code =>
        simp [outcomeTarget] at htgt

lemma executeIMS_ok_of_rank (k : Nat) :
    ∀ (o : IMSOracle) (d : Decision) (ims : Option Date) (c : Nat),
      rank d ≤ k → rank d + c + 1 ≤ MAX_STATE_MACHINE_TRANSITIONS →
      (d = .L15IfModifiedSinceGreaterThanNow → ims.isSome = true) →
      ∃ te n, executeIMS o d ims c = .ok (te, n) ∧ te.is_terminal = true := by
  induction k with
  | zero =>
    intro o d ims c hk _ _
    have hterm : d.is_terminal = true := terminal_of_rank_eq_zero d (Nat.le_zero.mp hk)
    refine ⟨d, c, ?_, hterm⟩
    unfold executeIMS
    simp [hterm]
  | succ k ih =>
    intro o d ims c hk hbound hinv
    by_cases hterm : d.is_terminal = true
    · refine ⟨d, c, ?_, hterm⟩
      unfold executeIMS
      simp [hterm]
    · have hterm' : d.is_terminal = false := by simpa using hterm
      have hrpos : 1 ≤ rank d := by
        by_contra hlt
        exact hterm (terminal_of_rank_eq_zero d (by omega))
      have hcnt : ¬ MAX_STATE_MACHINE_TRANSITIONS ≤ c + 1 := by
        simp only [MAX_STATE_MACHINE_TRANSITIONS] at hbound ⊢
        omega
      obtain ⟨t, ht⟩ := Option.isSome_iff_exists.mp (transition_map_total d hterm')
      cases t with
      | To d' =>
        have hlt : rank d' < rank d := by
          have := rank_outcomeTarget_lt d (.To d') .isTrue ht
          simpa [outcomeTarget] using this
        obtain ⟨te, n, hrun, hte⟩ :=
          ih o d' ims (c + 1) (by omega) (by omega)
            (fun hcontra => absurd hcontra (to_target_ne_L15 d d' ht))
        refine ⟨te, n, ?_, hte⟩
        rw [executeIMS]
        simp [hterm', hcnt, ht]
        exact hrun
      | Branch tt ff =>
        obtain ⟨rp, hrp⟩ :=
          Option.isSome_iff_exists.mp (evalIMS_isSome o c d ims hinv)
        obtain ⟨r, ims'⟩ := rp
        have hlt : rank (outcomeTarget (.Branch tt ff) r) < rank d :=
          rank_outcomeTarget_lt d (.Branch tt ff) r ht
        obtain ⟨te, n, hrun, hte⟩ :=
          ih o (outcomeTarget (.Branch tt ff) r) ims' (c + 1) (by omega) (by omega)
            (ims_invariant_step o c d ims r ims' tt ff ht hrp)
        refine ⟨te, n, ?_, hte⟩
        rw [executeIMS]
        simp [hterm', hcnt, ht, hrp]
        exact hrun

/-- C8: in every run of the instrumented state machine from Start, where
the context starts with no parsed If-Modified-Since date, the
L15IfModifiedSinceGreaterThanNow node is evaluated only on paths where
L14IfModifiedSinceValid has just evaluated true and stored the parsed
date, so the unconditional unwrap of context.if_modified_since modelled
in evalIMS never panics: for every oracle the run returns a terminal
state normally; moreover L15 is a branch target only as the true target
of L14, and never the target of the unconditional Start transition. -/
theorem executeIMS_no_unwrap_panic (o : IMSOracle) :
    (∃ te n, executeIMS o .Start none 0 = .ok (te, n) ∧ te.is_terminal = true) ∧
    (∀ d t f, TRANSITION_MAP d = some (.Branch t f) →
      (t = .L15IfModifiedSinceGreaterThanNow → d = .L14IfModifiedSinceValid) ∧
        f ≠ .L15IfModifiedSinceGreaterThanNow) ∧
    (∀ d d', TRANSITION_MAP d = some (.To d') →
      d' ≠ .L15IfModifiedSinceGreaterThanNow) := by
  refine ⟨?_, branch_target_L15, to_target_ne_L15⟩
  exact executeIMS_ok_of_rank 41 o .Start none 0 (by simp [rank])
    (by simp [rank, MAX_STATE_MACHINE_TRANSITIONS]) (by simp)

/-- An oracle with trivial outcomes, used by the C8 witness. -/
def trivialIMSOracle : IMSOracle :=
  ⟨fun _ _ => .isTrue, fun _ => none, fun _ _ => true, fun _ _ i => i⟩

/-- Witness for C8: the instrumented run under the trivial oracle
reaches a terminal state normally. -/
theorem executeIMS_no_unwrap_panic_witness :
    ∃ te n, executeIMS trivialIMSOracle .Start none 0 = .ok (te, n) ∧
      te.is_terminal = true :=
  (executeIMS_no_unwrap_panic trivialIMSOracle).1

end Webmachine
